import Mathlib

/-
Verification development for the core subsystems of the Bible study backend:

* `Sched`    — the delayed-retry task scheduler
               (internal/scheduler/scheduler.go, internal/scheduler/minHeap.go);
* `RL`       — the distributed sliding-window rate limiter
               (the server-side Lua script over a sorted set);
* `TokenSvc` — the session-token validation cache
               (internal/service TokenService, internal/cache/redis.go,
                the token model, and the login handler path).

Shallow embedding conventions:

* Go `time.Time` instants are modelled as `Int` milliseconds.
* Go dynamic values (`interface{}` / `any`) are modelled by small closed
  inductive types; a failed non-comma-ok type assertion, an out-of-range
  index, and any other Go runtime panic are modelled by an `Option` result
  being `none`.
* External collaborators (the SMTP mailer, the SQL database, the bcrypt
  comparison) are passed in as oracle parameters; the observable calls the
  code makes to them are recorded in an event trace.
-/

namespace BibleProj

namespace Sched

/-- Payloads carried in the dynamically typed `Task.Data any` field
(internal/scheduler/task definitions): `TaskEmailData`,
`TaskPasswordResetEmail`, `TaskTokenActivationData`, or any other value. -/
inductive TaskData where
  | emailData (userName email activationURL : String)
  | passwordResetEmail (email passwordResetURL : String)
  | tokenActivationData (email activationURL : String)
  | other
deriving DecidableEq, Repr

/-- Model of `scheduler.Task`. `Data any` is modelled by the closed `TaskData`;
instants (`ExecuteAt`, `CreatedAt`) are `Int` milliseconds. -/
structure Task where
  id : String
  type : String
  data : TaskData
  retries : Int
  maxRetries : Int
  executeAt : Int
  createdAt : Int
deriving DecidableEq, Repr

/-- The task-kind constants of the scheduler package. -/
def SendActivationEmail : String := "send-activation-email"

def SendPasswordResetEmail : String := "send-password-reset-email"

def SendTokenActivatoinEmail : String := "send-token-activation-email"

/-- A dynamically typed value handed to / returned by the
`container/heap`-style interface methods (`interface{}`): either a `Task`
value or a `*Task` pointer. -/
inductive HeapElem where
  | taskVal (t : Task)
  | taskPtr (t : Task)
deriving DecidableEq, Repr

/-- Model of `PriorityQueue []*Task` — the contents of the slice of task pointers. -/
abbrev PriorityQueue := List Task

/-- Model of `func (pq *PriorityQueue) Push(x interface{}) { *pq = append(*pq, x.(*Task)) }`.
The non-comma-ok assertion `x.(*Task)` panics (`none`) unless `x` is a
`*Task`; on a `*Task` it plainly appends, with no sift-up. -/
def PriorityQueue.push (pq : PriorityQueue) (x : HeapElem) : Option PriorityQueue :=
  match x with
  | HeapElem.taskPtr t => some (pq ++ [t])
  | HeapElem.taskVal _ => none

/-- Model of `func (pq *PriorityQueue) Pop() interface{}`: reads `old[n-1]`, shrinks
the slice, and returns the removed element — the most recently appended one,
with no sift-down.  On an empty queue `old[n-1]` panics (`none`). -/
def PriorityQueue.pop (pq : PriorityQueue) : Option (Task × PriorityQueue) :=
  match pq.getLast? with
  | none => none
  | some t => some (t, pq.dropLast)

/-- Model of `func (pq *PriorityQueue) Peek() interface{}`: `nil` when empty,
otherwise the `*Task` at index 0. -/
def PriorityQueue.peek (pq : PriorityQueue) : Option HeapElem :=
  pq.head?.map HeapElem.taskPtr

/-- Model of `func (pq PriorityQueue) Less(i, j int) bool`:
`pq[i].ExecuteAt.Before(pq[j].ExecuteAt)`; out-of-range indexing panics. -/
def PriorityQueue.less (pq : PriorityQueue) (i j : Nat) : Option Bool :=
  match pq.get? i, pq.get? j with
  | some a, some b => some (decide (a.executeAt < b.executeAt))
  | _, _ => none

/-- Model of `mailer.MailerError` (Code, Message, Retrieable; the wrapped cause and
the metadata map are carried opaquely by the mailer and are not examined by
the scheduler, so they are not modelled). -/
structure MailerError where
  code : String
  message : String
  retrieable : Bool
deriving DecidableEq, Repr

/-- Outcome of one `Mailer.Send` call as seen through
`errors.As(err, &mailerErr)`: `ok` (nil error), a `*MailerError`, or some
other non-nil error (for which `errors.As` yields false). -/
inductive SendOutcome where
  | ok
  | mailerErr (e : MailerError)
  | plainErr
deriving DecidableEq, Repr

/-- The mailer collaborator: recipient → template file → outcome. -/
def Mailer := String → String → SendOutcome

/-- Observable scheduler effects: a `Mailer.Send` invocation
(recipient, template) and a `Logger.Error("email failed", ...)` line
(code, retriable flag). -/
inductive Event where
  | send (email template : String)
  | logged (code : String) (retriable : Bool)
deriving DecidableEq, Repr

/-- The scheduler state touched by `processTask` / `scheduleRetry`: the
delayed min-heap slice and the dead-letter slice.  (The Go methods have
value receivers, so the `DeadQueue` append below mutates a copy of the
`Scheduler` struct and is invisible to every other component; the model
returns the local copy's state.) -/
structure SchedState where
  delayedQueue : PriorityQueue
  deadQueue : List Task
deriving DecidableEq, Repr

/-- One minute of `time.Duration`, in the millisecond scale of this model. -/
def minuteMs : Int := 60000

/-- Model of `Scheduler.scheduleRetry`: under `Retries < MaxRetries`, increment the
local copy's `Retries`, set `ExecuteAt := CreatedAt + {2,4,8} minutes` for
retries 1..3, then `s.DelayedQueue.Push(task)` — calling the raw slice
method (not `heap.Push`) and passing a `Task` value where `Push` asserts
`*Task`, which panics (`none`). -/
def scheduleRetry (st : SchedState) (task : Task) : Option SchedState :=
  if task.retries < task.maxRetries then
    let task1 := { task with retries := task.retries + 1 }
    let task2 :=
      if task1.retries = 1 then { task1 with executeAt := task1.createdAt + 2 * minuteMs }
      else if task1.retries = 2 then { task1 with executeAt := task1.createdAt + 4 * minuteMs }
      else if task1.retries = 3 then { task1 with executeAt := task1.createdAt + 8 * minuteMs }
      else task1
    (PriorityQueue.push st.delayedQueue (HeapElem.taskVal task2)).map
      (fun dq => { st with delayedQueue := dq })
  else some st

/-- Model of `Scheduler.processTask`.  Each branch is guarded by
`task.Type == <kind> && task.Retries < task.MaxRetries`; the
`data, ok := task.Data.(<T>)` comma-ok assertion yields the zero value on
mismatch and the `if !ok { }` body is empty, so execution falls through to
`Mailer.Send` either way; `errors.As` distinguishes a `*MailerError`; a
retriable one goes to `scheduleRetry` (whose panic propagates, `none`), a
non-retriable one is appended to the (receiver-copy) dead queue.  A task
whose guard fails — unknown kind, or `Retries ≥ MaxRetries` — falls off the
if/else chain with no action at all. -/
def processTask (mailer : Mailer) (st : SchedState) (task : Task) :
    List Event × Option SchedState :=
  if task.type = SendActivationEmail ∧ task.retries < task.maxRetries then
    let email :=
      match task.data with
      | TaskData.emailData _ e _ => e
      | _ => ""
    match mailer email ("user_welcome.tmpl") with
    | SendOutcome.mailerErr me =>
      let evs := [Event.send email ("user_welcome.tmpl"), Event.logged me.code me.retrieable]
      if me.retrieable then (evs, scheduleRetry st task)
      else (evs, some { st with deadQueue := st.deadQueue ++ [task] })
    | _ => ([Event.send email ("user_welcome.tmpl")], some st)
  else if task.type = SendPasswordResetEmail ∧ task.retries < task.maxRetries then
    let email :=
      match task.data with
      | TaskData.passwordResetEmail e _ => e
      | _ => ""
    match mailer email ("token_password_reset.tmpl") with
    | SendOutcome.mailerErr me =>
      let evs := [Event.send email ("token_password_reset.tmpl"), Event.logged me.code me.retrieable]
      if me.retrieable then (evs, scheduleRetry st task)
      else (evs, some { st with deadQueue := st.deadQueue ++ [task] })
    | _ => ([Event.send email ("token_password_reset.tmpl")], some st)
  else if task.type = SendTokenActivatoinEmail ∧ task.retries < task.maxRetries then
    let email :=
      match task.data with
      | TaskData.tokenActivationData e _ => e
      | _ => ""
    match mailer email ("token_activation.tmpl") with
    | SendOutcome.mailerErr me =>
      let evs := [Event.send email ("token_activation.tmpl"), Event.logged me.code me.retrieable]
      if me.retrieable then (evs, scheduleRetry st task)
      else (evs, some { st with deadQueue := st.deadQueue ++ [task] })
    | _ => ([Event.send email ("token_activation.tmpl")], some st)
  else ([], some st)

/-- Model of `Scheduler.worker`: `for task := range taskChannel { s.processTask(task) }`,
with no deferred `recover` anywhere on the goroutine; a panic raised inside
`processTask` (modelled `none`) escapes the loop and kills the worker, so
later tasks of the channel are never processed. -/
def workerRun (mailer : Mailer) : SchedState → List Task → List Event × Option SchedState
  | st, [] => ([], some st)
  | st, t :: ts =>
    match processTask mailer st t with
    | (evs, none) => (evs, none)
    | (evs, some st') =>
      let (evs2, r) := workerRun mailer st' ts
      (evs ++ evs2, r)

/-- A mailer that always fails with a retriable `NETWORK_FAILURE`
(`mailer.NewNetworkError`). -/
def mailerNet : Mailer := fun _ _ =>
  SendOutcome.mailerErr { code := "NETWORK_FAILURE", message := "network failure during send", retrieable := true }

/-- A mailer that always succeeds. -/
def mailerOk : Mailer := fun _ _ => SendOutcome.ok

/-- Concrete task with `ExecuteAt = 1`. -/
def tEarly : Task :=
  { id := "A", type := SendActivationEmail, data := TaskData.other,
    retries := 0, maxRetries := 3, executeAt := 1, createdAt := 0 }

/-- Concrete task with `ExecuteAt = 2`. -/
def tLate : Task :=
  { id := "B", type := SendActivationEmail, data := TaskData.other,
    retries := 0, maxRetries := 3, executeAt := 2, createdAt := 0 }

/-- A fresh activation-mail task with a well-typed payload. -/
def tActivation : Task :=
  { id := "T1", type := SendActivationEmail,
    data := TaskData.emailData ("alice") "a@x" "http://x/T1",
    retries := 0, maxRetries := 3, executeAt := 0, createdAt := 0 }

/-- The same task after three retriable failures: `Retries = MaxRetries = 3`. -/
def tExhausted : Task :=
  { tActivation with retries := 3, executeAt := 8 * minuteMs }

/-- An activation-mail task whose payload does not type-match its kind
(`TaskPasswordResetEmail` under kind `SendActivationEmail`). -/
def tBadPayload : Task :=
  { id := "T2", type := SendActivationEmail,
    data := TaskData.passwordResetEmail ("p@x") "http://x/reset",
    retries := 0, maxRetries := 3, executeAt := 0, createdAt := 0 }

/-- The empty scheduler state. -/
def st0 : SchedState := { delayedQueue := [], deadQueue := [] }

end Sched

namespace RL

/-- One member of the sorted set `rl:<action>:<subject>`.  The member string
is `"<now_ms>-<seq>"`, modelled as the pair of its two decimal components;
its ZADD score is the same `now_ms`. -/
structure Entry where
  ms : Int
  seq : Nat
deriving DecidableEq, Repr

/-- The per-key Redis state the script touches: the sorted-set members, the
value of the `<key>:seq` counter, and the (shared) expiry deadline both keys
received from the last `PEXPIRE window_ms`. -/
structure RLState where
  entries : List Entry
  seqVal : Nat
  deadline : Int
deriving DecidableEq, Repr

/-- Absent keys: empty set, counter at 0 (the next INCR yields 1). -/
def initState : RLState := { entries := [], seqVal := 0, deadline := 0 }

/-- Per-action limit and the shared window, as the script receives them in
`ARGV[1]`, `ARGV[2]`. -/
structure RLConfig where
  limit : Nat
  windowMs : Int
deriving DecidableEq, Repr

/-- Redis expires both keys lazily once the TTL set at the last admitted
call has passed (`PEXPIRE` both keys get the same deadline, so they die
together; an expired counter restarts INCR at 1). -/
def expire (st : RLState) (nowMs : Int) : RLState :=
  if st.deadline < nowMs then { entries := [], seqVal := 0, deadline := st.deadline } else st

/-- Model of `ZREMRANGEBYSCORE KEYS[1] 0 cutoff`: drop every member whose score lies
in the inclusive range `[0, cutoff]`. -/
def evict (es : List Entry) (cutoff : Int) : List Entry :=
  es.filter (fun e => if 0 ≤ e.ms ∧ e.ms ≤ cutoff then false else true)

/-- Model of `ZRANGE KEYS[1] 0 0 WITHSCORES` — the score of the lowest-scored member,
`none` on an empty set. -/
def lowestScore : List Entry → Option Int
  | [] => none
  | e :: es =>
    some (match lowestScore es with
          | none => e.ms
          | some m => min e.ms m)

/-- One execution of the sliding-window Lua script at server time `nowMs`:
evict the expired slice, count, then either deny with the retry-after hint
computed from the oldest surviving score, or INCR the sequence counter,
ZADD the new member at score `nowMs`, and refresh both TTLs.  Returns the
`{0|1, retry_after_ms}` pair and the resulting key state. -/
def rlStep (cfg : RLConfig) (st : RLState) (nowMs : Int) : (Bool × Int) × RLState :=
  let st := expire st nowMs
  let cutoff := nowMs - cfg.windowMs
  let es := evict st.entries cutoff
  let count := es.length
  if cfg.limit ≤ count then
    match lowestScore es with
    | some oldest =>
      let retry := cfg.windowMs - (nowMs - oldest)
      let retry := if retry < 0 then 0 else retry
      ((false, retry), { st with entries := es })
    | none => ((false, cfg.windowMs), { st with entries := es })
  else
    let s := st.seqVal + 1
    let member : Entry := { ms := nowMs, seq := s }
    -- ZADD on an already-present member would only (re)set its equal score
    let es' := if member ∈ es then es else es ++ [member]
    ((true, 0), { entries := es', seqVal := s, deadline := nowMs + cfg.windowMs })

/-- A sequence of `allow` calls against one key at the given (server) times:
the list of `(now_ms, admitted)` outcomes and the final state. -/
def rlTrace (cfg : RLConfig) : RLState → List Int → List (Int × Bool) × RLState
  | st, [] => ([], st)
  | st, t :: ts =>
    let r := rlStep cfg st t
    let rest := rlTrace cfg r.2 ts
    ((t, r.1.1) :: rest.1, rest.2)

/-- Membership of an instant in the sliding window `(T - w, T]`. -/
def inWin (w T a : Int) : Bool := decide (T - w < a) && decide (a ≤ T)

/-- The server times of the admitted calls of a trace. -/
def admittedTimes (tr : List (Int × Bool)) : List Int :=
  (tr.filter (fun p => p.2)).map (fun p => p.1)

/-- Reachability invariant tying a key's Redis state to the multiset `A` of
times of the calls admitted so far, where `t0` is the last server time seen:
scores are the nonneg admission times, bounded by `t0`; every member's TTL
covers it for a full window; member sequence components never exceed the
counter; the set's cardinality respects the limit; every admitted call still
inside a window ending now has its member in the set (counting by any
cutoff at or above `t0 - window`); and every sliding window holds at most
`limit` admitted calls. -/
structure Inv (cfg : RLConfig) (st : RLState) (A : List Int) (t0 : Int) : Prop where
  wfLo : ∀ e ∈ st.entries, 0 ≤ e.ms
  wfHi : ∀ e ∈ st.entries, e.ms ≤ t0
  wfDl : ∀ e ∈ st.entries, e.ms + cfg.windowMs ≤ st.deadline
  wfSeq : ∀ e ∈ st.entries, e.seq ≤ st.seqVal
  card : st.entries.length ≤ cfg.limit
  inj : ∀ cut : Int, t0 - cfg.windowMs ≤ cut →
    A.countP (fun a => decide (cut < a)) ≤ st.entries.countP (fun e => decide (cut < e.ms))
  win : ∀ T : Int, A.countP (inWin cfg.windowMs T) ≤ cfg.limit

end RL

namespace TokenSvc

/-- Modelled from the spec: the `internal/validator` package is not under
src/ (only its call sites are).  Per §4.4 step 1 the caller shape-validates
and an invalid shape yields not-found; the validator accumulates keyed
violation messages — `New` starts empty, `Check(ok, key, msg)` records the
message when `ok` is false, `Valid` holds when nothing was recorded. -/
abbrev Validator := List (String × String)

/-- Model of `validator.New()`. -/
def Validator.new : Validator := []

/-- Model of `v.Check(ok, key, message)`. -/
def Validator.check (v : Validator) (ok : Bool) (key msg : String) : Validator :=
  if ok then v else v ++ [(key, msg)]

/-- Model of `v.Valid()`. -/
def Validator.valid (v : Validator) : Bool := v.isEmpty

/-- Go `strings.Split(s, sep)` for the one-character separators this code
uses: splitting the empty string yields one empty field, and every
separator occurrence opens a new field. -/
def splitChars (sep : Char) : List Char → List (List Char)
  | [] => [[]]
  | c :: cs =>
    let r := splitChars sep cs
    if c = sep then [] :: r
    else
      match r with
      | [] => [[c]]
      | g :: gs => (c :: g) :: gs

/-- Model of `strings.Split` on `String`s (single-character separator). -/
def goSplit (s : String) (sep : Char) : List String :=
  (splitChars sep s.toList).map (fun l => String.mk l)

/-- Strip `p` from the front of `s`, or report that it is not a prefix. -/
def dropPref : List Char → List Char → Option (List Char)
  | [], s => some s
  | _ :: _, [] => none
  | p :: ps, c :: cs => if p = c then dropPref ps cs else none

/-- Go `strings.CutPrefix(s, p)`: `(s without p, true)` when `p` leads `s`,
otherwise `(s, false)`. -/
def cutPref (s p : String) : String × Bool :=
  match dropPref p.toList s.toList with
  | some rest => (String.mk rest, true)
  | none => (s, false)

/-- Decimal digits to a number; `none` on a non-digit or on no input
reaching a digit check is handled by the callers. -/
def parseDigitsAux : Nat → List Char → Option Nat
  | acc, [] => some acc
  | acc, c :: cs =>
    if c.isDigit then parseDigitsAux (acc * 10 + (c.toNat - 48)) cs
    else none

/-- Go `strconv.ParseInt(s, 10, 64)` with its error ignored by the caller
(`id, _ := ...`): the parsed value, or the zero value 0 when parsing fails.
(The 64-bit overflow clamp is not modelled; no token decode in this code
path depends on it.) -/
def parseInt64 (s : String) : Int :=
  match s.toList with
  | [] => 0
  | '-' :: cs =>
    (match cs, parseDigitsAux 0 cs with
     | _ :: _, some n => -(n : Int)
     | _, _ => 0)
  | '+' :: cs =>
    (match cs, parseDigitsAux 0 cs with
     | _ :: _, some n => (n : Int)
     | _, _ => 0)
  | cs =>
    (match parseDigitsAux 0 cs with
     | some n => (n : Int)
     | none => 0)

/-- Go `strconv.ParseBool` with its error ignored by the caller: true
exactly on the six true-spellings, and the zero value false otherwise. -/
def parseBool (s : String) : Bool :=
  s == "1" || s == "t" || s == "T" || s == "TRUE" || s == "true" || s == "True"

/-- What the Redis `GET token:<token>` round trip yields: a present value,
the distinguished `redis.Nil` absence, or a transport error. -/
inductive RedisGet where
  | found (s : String)
  | nilReply
  | connErr
deriving DecidableEq, Repr

/-- Model of `RedisClient.GetForToken` (internal/cache/redis.go): maps `redis.Nil`
to `("", nil)`, a transport error to `("", err)`, and a present value to
`(value, nil)`.  The second component models the returned `error`. -/
def redisGetForToken (g : RedisGet) : String × Option Unit :=
  match g with
  | RedisGet.found s => (s, none)
  | RedisGet.nilReply => ("", none)
  | RedisGet.connErr => ("", some ())

/-- The `data.User` fields this path reads and writes (`ID`, `Activated`);
the remaining columns are never touched by token resolution. -/
structure User where
  id : Int
  activated : Bool
deriving DecidableEq, Repr

/-- Outcome of `userModel.GetForToken(token, ScopeAuthentication)` — the
database query for a non-expired authentication token whose stored hash is
SHA-256 of the plaintext: a row, `ErrRecordNotFound`, or another error. -/
inductive DbResult where
  | found (u : User)
  | missing
  | failure
deriving DecidableEq, Repr

/-- The externally observable calls `GetUserForToken` makes, in order. -/
inductive TsEvent where
  | cacheGet (token : String)
  | dbGet (token : String) (scope : String)
  | cacheSet (token : String) (id : Int) (activated : Bool)
  | logged
deriving DecidableEq, Repr

/-- The errors `GetUserForToken` returns: `ErrInvalidToken`, or a database
error propagated unchanged. -/
inductive TsError where
  | invalidToken
  | serverErr
deriving DecidableEq, Repr

/-- Model of `TokenService.GetUserForToken` (the service consulted by the
authenticate middleware).  Shape-validate the 26-character length; call
`redis.GetForToken`; when the returned error is nil — which covers both a
genuine hit and the `("", nil)` a miss is mapped to — split the value on
`","`, cut the `id:` / `activated:` markers off fields 0 and 1 and parse
them (indexing field 1 of a too-short split panics, `none`); only when the
cache call returned a non-nil error fall through to the database, and on a
row backfill the cache (a failed backfill is only logged).  Oracles: `g`
the cache reply, `db` the database reply, `setFails` whether the backfill
`SetToken` errors. -/
def getUserForToken (g : RedisGet) (db : DbResult) (setFails : Bool)
    (tokenPlainText : String) : List TsEvent × Option (Except TsError User) :=
  let v := Validator.new
  let v := v.check (tokenPlainText.length == 26) "token" "must be 26 bytes long"
  if ¬ v.valid then ([], some (Except.error TsError.invalidToken))
  else
    let ev0 := [TsEvent.cacheGet tokenPlainText]
    let r := redisGetForToken g
    if (r.2).isNone then
      match goSplit r.1 (',') with
      | t0 :: t1 :: _ =>
        let idStr := (cutPref t0 ("id:")).1
        let activatedStr := (cutPref t1 ("activated:")).1
        (ev0, some (Except.ok { id := parseInt64 idStr, activated := parseBool activatedStr }))
      | _ => (ev0, none)
    else
      let ev1 := ev0 ++ [TsEvent.dbGet tokenPlainText ("authentication")]
      match db with
      | DbResult.missing => (ev1, some (Except.error TsError.invalidToken))
      | DbResult.failure => (ev1, some (Except.error TsError.serverErr))
      | DbResult.found u =>
        let ev2 := ev1 ++ [TsEvent.cacheSet tokenPlainText u.id u.activated]
        let ev3 := if setFails then ev2 ++ [TsEvent.logged] else ev2
        (ev3, some (Except.ok u))

/-- The `data.User` fields the login path reads. -/
structure UserRec where
  id : Int
  email : String
  activated : Bool
deriving DecidableEq, Repr

/-- Outcome of `userModel.GetByEmail`. -/
inductive GetByEmailRes where
  | found (u : UserRec)
  | missing
  | failure
deriving DecidableEq, Repr

/-- Outcome of `user.Password.Matches(password)` (a bcrypt comparison). -/
inductive MatchRes where
  | ok (matched : Bool)
  | failure
deriving DecidableEq, Repr

/-- The externally observable calls of the login path, in order.  (The two
`fmt.Println` debug lines write to stdout only and are not modelled.) -/
inductive LoginEvent where
  | dbGetByEmail (email : String)
  | dbInsert (userID : Int) (scope : String)
  | cacheSet (token : String) (userID : Int) (activated : Bool)
  | logged
deriving DecidableEq, Repr

/-- Whether an event is the Redis `SetToken` cache write. -/
def isCacheSet : LoginEvent → Bool
  | LoginEvent.cacheSet _ _ _ => true
  | _ => false

/-- The errors `CreateAuthToken` distinguishes. -/
inductive AuthErr where
  | validationFailed
  | emailNotFound
  | passwordNotMatch
  | serverErr
deriving DecidableEq, Repr

/-- The `data.Token` fields the login path uses downstream (the stored
`Hash` is SHA-256 of `Plaintext`; its bytes play no role in these claims). -/
structure Token where
  plaintext : String
  userID : Int
  scope : String
deriving DecidableEq, Repr

/-- Model of `tokenModel.New` (data/tokens): `generateToken` draws a fresh plaintext
(`rand.Text()`, here the oracle `plaintext`) and hashes it, then `Insert`
runs the `INSERT INTO tokens (hash, user_id, expiry, scope)` statement —
the emitted `dbInsert` event — whose success is the oracle `insertOk`;
`New` returns the token together with `Insert`'s error. -/
def TokenModel.new (plaintext : String) (insertOk : Bool) (userID : Int)
    (scope : String) : List LoginEvent × (Token × Bool) :=
  ([LoginEvent.dbInsert userID scope],
   ({ plaintext := plaintext, userID := userID, scope := scope }, insertOk))

/-- Model of `validateEmail`: non-empty and matching `validator.EmailRX`; the regex
lives in the absent validator package and is the oracle `emailRx`. -/
def validateEmail (emailRx : String → Bool) (v : Validator) (email : String) : Validator :=
  let v := v.check (email != "") "email" "must be provided"
  v.check (emailRx email) "email" "must be a valid email"

/-- Model of `validatePassword`: non-empty and between 8 and 72 bytes. -/
def validatePassword (v : Validator) (password : String) : Validator :=
  let v := v.check (password != "") "password" "must be provided"
  let v := v.check (password.length ≥ 8) "password" "must be at least 8 bytes long"
  v.check (password.length ≤ 72) "password" "must not be more than 72 bytes long"

/-- Model of `TokenService.CreateAuthToken` — the login path.  Validate the inputs;
look the user up by email; compare the password; create the authentication
token (`tokenModel.New`, which performs the database insert of the token's
hash and returns its error); only then write the token into the cache with
`redis.SetToken`, whose failure is merely logged.  Oracles: `emailRx` the
validator regex, `gbe` the user lookup, `pw` the bcrypt outcome,
`plaintext` the generated token text, `insertOk` the insert's success,
`setOk` the cache write's success. -/
def createAuthToken (emailRx : String → Bool) (gbe : GetByEmailRes) (pw : MatchRes)
    (plaintext : String) (insertOk : Bool) (setOk : Bool)
    (email password : String) : List LoginEvent × Except AuthErr String :=
  if ¬ (validatePassword (validateEmail emailRx Validator.new email) password).valid then
    ([], Except.error AuthErr.validationFailed)
  else
    let evs := [LoginEvent.dbGetByEmail email]
    match gbe with
    | GetByEmailRes.missing => (evs, Except.error AuthErr.emailNotFound)
    | GetByEmailRes.failure => (evs, Except.error AuthErr.serverErr)
    | GetByEmailRes.found user =>
      match pw with
      | MatchRes.failure => (evs, Except.error AuthErr.serverErr)
      | MatchRes.ok false => (evs, Except.error AuthErr.passwordNotMatch)
      | MatchRes.ok true =>
        let r := TokenModel.new plaintext insertOk user.id ("authentication")
        let evs := evs ++ r.1
        if ¬ r.2.2 then (evs, Except.error AuthErr.serverErr)
        else
          let evs := evs ++ [LoginEvent.cacheSet r.2.1.plaintext user.id user.activated]
          let evs := if ¬ setOk then evs ++ [LoginEvent.logged] else evs
          (evs, Except.ok r.2.1.plaintext)

end TokenSvc

end BibleProj

namespace BibleProj.RL

lemma expire_deadline (st : RLState) (n : Int) : (expire st n).deadline = st.deadline := by
  unfold expire; split <;> rfl

lemma expire_cases (st : RLState) (n : Int) :
    expire st n = st
    ∨ expire st n = { entries := [], seqVal := 0, deadline := st.deadline } := by
  unfold expire; split
  · right; rfl
  · left; rfl

/-- After the lazy key expiry and the script's `ZREMRANGEBYSCORE`, the
members left are exactly those still inside the window ending now. -/
lemma cleanup_eq (cfg : RLConfig) (st : RLState) (now : Int)
    (hlo : ∀ e ∈ st.entries, 0 ≤ e.ms)
    (hdl : ∀ e ∈ st.entries, e.ms + cfg.windowMs ≤ st.deadline) :
    evict (expire st now).entries (now - cfg.windowMs)
      = st.entries.filter (fun e => decide (now - cfg.windowMs < e.ms)) := by
  unfold expire evict
  by_cases hexp : st.deadline < now
  · simp only [if_pos hexp, List.filter_nil]
    symm
    rw [List.filter_eq_nil_iff]
    intro e he
    have h1 := hdl e he
    simp only [decide_eq_true_eq]
    omega
  · simp only [if_neg hexp]
    apply List.filter_congr
    intro e he
    have h0 := hlo e he
    by_cases hc : now - cfg.windowMs < e.ms
    · have hn : ¬ (0 ≤ e.ms ∧ e.ms ≤ now - cfg.windowMs) := by omega
      simp [hn, hc]
    · have hp : 0 ≤ e.ms ∧ e.ms ≤ now - cfg.windowMs := by omega
      simp [hp, hc]

lemma lowestScore_isSome : ∀ (l : List Entry), l ≠ [] → (lowestScore l).isSome = true
  | [], h => absurd rfl h
  | _ :: _, _ => rfl

lemma lowestScore_le : ∀ (l : List Entry) (m : Int), lowestScore l = some m →
    ∀ e ∈ l, m ≤ e.ms := by
  intro l
  induction l with
  | nil => intro m h; cases h
  | cons a l ih =>
    intro m h e he
    rw [lowestScore] at h
    cases hl : lowestScore l with
    | none =>
      rw [hl] at h
      have hnil : l = [] := by
        cases l with
        | nil => rfl
        | cons b l' => simp [lowestScore] at hl
      subst hnil
      rcases List.mem_singleton.mp he with rfl
      simp at h; omega
    | some m' =>
      rw [hl] at h
      simp at h
      rcases List.mem_cons.mp he with rfl | he'
      · omega
      · have := ih m' hl e he'
        omega

lemma lowestScore_mem : ∀ (l : List Entry) (m : Int), lowestScore l = some m →
    ∃ e ∈ l, e.ms = m := by
  intro l
  induction l with
  | nil => intro m h; cases h
  | cons a l ih =>
    intro m h
    rw [lowestScore] at h
    cases hl : lowestScore l with
    | none =>
      rw [hl] at h; simp at h
      exact ⟨a, List.mem_cons_self a l, h⟩
    | some m' =>
      rw [hl] at h; simp at h
      rcases min_cases a.ms m' with ⟨hmin, _⟩ | ⟨hmin, _⟩
      · exact ⟨a, List.mem_cons_self a l, by omega⟩
      · obtain ⟨e, he, hems⟩ := ih m' hl
        exact ⟨e, List.mem_cons_of_mem a he, by omega⟩

/-- When the post-eviction cardinality has reached the limit, the script
denies and only the eviction touches the key: no member is added and the
counter is untouched. -/
lemma rlStep_deny_shape (cfg : RLConfig) (st : RLState) (now : Int)
    (h : cfg.limit ≤ (evict (expire st now).entries (now - cfg.windowMs)).length) :
    (rlStep cfg st now).1.1 = false
    ∧ (rlStep cfg st now).2.entries = evict (expire st now).entries (now - cfg.windowMs)
    ∧ (rlStep cfg st now).2.seqVal = (expire st now).seqVal
    ∧ (rlStep cfg st now).2.deadline = (expire st now).deadline := by
  unfold rlStep
  simp only [if_pos h]
  cases hlow : lowestScore (evict (expire st now).entries (now - cfg.windowMs)) <;>
    simp [hlow]

/-- When the count is below the limit, the script admits and appends the
single fresh member `(now, seq+1)`. -/
lemma rlStep_admit_shape (cfg : RLConfig) (st : RLState) (now : Int)
    (h : ¬ cfg.limit ≤ (evict (expire st now).entries (now - cfg.windowMs)).length)
    (hfresh : ({ ms := now, seq := (expire st now).seqVal + 1 } : Entry)
        ∉ evict (expire st now).entries (now - cfg.windowMs)) :
    (rlStep cfg st now).1 = (true, 0)
    ∧ (rlStep cfg st now).2 =
      { entries := evict (expire st now).entries (now - cfg.windowMs)
          ++ [{ ms := now, seq := (expire st now).seqVal + 1 }],
        seqVal := (expire st now).seqVal + 1,
        deadline := now + cfg.windowMs } := by
  unfold rlStep
  simp only [if_neg h, if_neg hfresh]
  exact ⟨trivial, trivial⟩

/-- One script execution preserves the reachability invariant, the ghost
list of admitted times extended when the call is admitted. -/
lemma rlStep_inv (cfg : RLConfig) (st : RLState) (A : List Int) (t0 t' : Int)
    (hinv : Inv cfg st A t0) (ht : t0 ≤ t') (h0 : 0 ≤ t') :
    Inv cfg (rlStep cfg st t').2
      (if (rlStep cfg st t').1.1 then A ++ [t'] else A) t' := by
  have hclean := cleanup_eq cfg st t' hinv.wfLo hinv.wfDl
  have hsub : ∀ e ∈ evict (expire st t').entries (t' - cfg.windowMs), e ∈ st.entries := by
    intro e he
    rw [hclean] at he
    exact (List.mem_filter.mp he).1
  have hlive : ∀ e ∈ evict (expire st t').entries (t' - cfg.windowMs),
      t' - cfg.windowMs < e.ms := by
    intro e he
    rw [hclean] at he
    simpa using (List.mem_filter.mp he).2
  have hseq1 : ∀ e ∈ evict (expire st t').entries (t' - cfg.windowMs),
      e.seq ≤ (expire st t').seqVal := by
    rcases expire_cases st t' with hE | hE
    · rw [hE]
      intro e he
      simp only [evict, List.mem_filter] at he
      exact hinv.wfSeq e he.1
    · rw [hE]
      intro e he
      simp only [evict, List.mem_filter, List.not_mem_nil, false_and] at he
  have hcnt : ∀ cut : Int, t' - cfg.windowMs ≤ cut →
      (evict (expire st t').entries (t' - cfg.windowMs)).countP
          (fun e => decide (cut < e.ms))
        = st.entries.countP (fun e => decide (cut < e.ms)) := by
    intro cut hcut
    rw [hclean, List.countP_filter]
    apply List.countP_congr
    intro e _
    constructor
    · intro hb
      simpa using (Bool.and_elim_left hb)
    · intro hb
      have : cut < e.ms := by simpa using hb
      simp only [Bool.and_eq_true, decide_eq_true_eq]
      omega
  have hlen : (evict (expire st t').entries (t' - cfg.windowMs)).length
      ≤ st.entries.length := by
    rw [hclean]; exact List.length_filter_le _ _
  by_cases hadm : cfg.limit ≤ (evict (expire st t').entries (t' - cfg.windowMs)).length
  · -- deny: evictions only
    obtain ⟨hres, hent, hseqv, hdlv⟩ := rlStep_deny_shape cfg st t' hadm
    rw [hres, if_neg (by simp)]
    refine ⟨?_, ?_, ?_, ?_, ?_, ?_, ?_⟩
    · intro e he; rw [hent] at he; exact hinv.wfLo e (hsub e he)
    · intro e he; rw [hent] at he
      have := hinv.wfHi e (hsub e he); omega
    · intro e he; rw [hent] at he
      rw [hdlv, expire_deadline]
      exact hinv.wfDl e (hsub e he)
    · intro e he; rw [hent] at he
      rw [hseqv]; exact hseq1 e he
    · rw [hent]; exact le_trans hlen hinv.card
    · intro cut hcut
      rw [hent, hcnt cut hcut]
      exact hinv.inj cut (by omega)
    · exact hinv.win
  · -- admit: one fresh member appended
    have hfresh : ({ ms := t', seq := (expire st t').seqVal + 1 } : Entry)
        ∉ evict (expire st t').entries (t' - cfg.windowMs) := by
      intro hmem
      have := hseq1 _ hmem
      simp at this
    obtain ⟨hres, hst⟩ := rlStep_admit_shape cfg st t' hadm hfresh
    have hres1 : (rlStep cfg st t').1.1 = true := by rw [hres]
    rw [hres1, if_pos rfl]
    have hcard : (evict (expire st t').entries (t' - cfg.windowMs)).length < cfg.limit := by
      omega
    refine ⟨?_, ?_, ?_, ?_, ?_, ?_, ?_⟩
    · intro e he
      rw [hst] at he
      simp only [List.mem_append, List.mem_singleton] at he
      rcases he with he | rfl
      · exact hinv.wfLo e (hsub e he)
      · exact h0
    · intro e he
      rw [hst] at he
      simp only [List.mem_append, List.mem_singleton] at he
      rcases he with he | rfl
      · have := hinv.wfHi e (hsub e he); omega
      · exact le_refl _
    · intro e he
      rw [hst] at he
      simp only [List.mem_append, List.mem_singleton] at he
      rw [hst]
      rcases he with he | rfl
      · have := hinv.wfHi e (hsub e he)
        simp only []
        omega
      · simp
    · intro e he
      rw [hst] at he
      simp only [List.mem_append, List.mem_singleton] at he
      rw [hst]
      rcases he with he | rfl
      · have := hseq1 e he
        simp only []
        omega
      · simp
    · rw [hst]
      simp only [List.length_append, List.length_singleton]
      omega
    · intro cut hcut
      rw [hst]
      simp only [List.countP_append, List.countP_cons, List.countP_nil]
      rw [hcnt cut hcut]
      have := hinv.inj cut (by omega)
      simp only [decide_eq_true_eq]
      by_cases hc : cut < t' <;> simp [hc] <;> omega
    · intro T
      simp only [List.countP_append, List.countP_cons, List.countP_nil]
      by_cases hT : inWin cfg.windowMs T t' = true
      · have hTw : T - cfg.windowMs < t' ∧ t' ≤ T := by
          simpa [inWin] using hT
        have h1 : A.countP (inWin cfg.windowMs T)
            ≤ A.countP (fun a => decide (t' - cfg.windowMs < a)) := by
          apply List.countP_mono_left
          intro a _ ha
          have := (by simpa [inWin] using ha : T - cfg.windowMs < a ∧ a ≤ T)
          simp only [decide_eq_true_eq]
          omega
        have h2 := hinv.inj (t' - cfg.windowMs) (by omega)
        have h3 : st.entries.countP (fun e => decide (t' - cfg.windowMs < e.ms))
            = (evict (expire st t').entries (t' - cfg.windowMs)).countP
                (fun e => decide (t' - cfg.windowMs < e.ms)) :=
          (hcnt (t' - cfg.windowMs) (le_refl _)).symm
        have h4 : (evict (expire st t').entries (t' - cfg.windowMs)).countP
              (fun e => decide (t' - cfg.windowMs < e.ms))
            ≤ (evict (expire st t').entries (t' - cfg.windowMs)).length :=
          List.countP_le_length _
        simp only [hT, if_true]
        omega
      · simp only [hT, if_false]
        simpa using hinv.win T

lemma admittedTimes_cons (t : Int) (b : Bool) (tr : List (Int × Bool)) :
    admittedTimes ((t, b) :: tr) = (if b then [t] else []) ++ admittedTimes tr := by
  unfold admittedTimes
  cases b <;> simp

/-- Running any monotone, nonneg sequence of calls from an invariant state
keeps every sliding window at or below the limit, counting both the ghost
past and the trace's admissions. -/
lemma rl_run_bound (cfg : RLConfig) (ts : List Int) :
    ∀ (st : RLState) (A : List Int) (t0 : Int),
      Inv cfg st A t0 → List.Pairwise (· ≤ ·) ts → (∀ t ∈ ts, t0 ≤ t ∧ 0 ≤ t) →
      ∀ T : Int,
        (A ++ admittedTimes (rlTrace cfg st ts).1).countP (inWin cfg.windowMs T)
          ≤ cfg.limit := by
  induction ts with
  | nil =>
    intro st A t0 hinv _ _ T
    simpa [rlTrace, admittedTimes] using hinv.win T
  | cons t' ts ih =>
    intro st A t0 hinv hpw hmem T
    obtain ⟨hhead, htail⟩ := List.pairwise_cons.mp hpw
    have ht : t0 ≤ t' := (hmem t' (List.mem_cons_self _ _)).1
    have h0 : 0 ≤ t' := (hmem t' (List.mem_cons_self _ _)).2
    have hstep := rlStep_inv cfg st A t0 t' hinv ht h0
    have hx := ih (rlStep cfg st t').2
      (if (rlStep cfg st t').1.1 then A ++ [t'] else A) t' hstep htail
      (fun t htm => ⟨hhead t htm, (hmem t (List.mem_cons_of_mem _ htm)).2⟩) T
    simp only [rlTrace]
    rw [admittedTimes_cons, ← List.append_assoc]
    have hifapp : (if (rlStep cfg st t').1.1 then A ++ [t'] else A)
        = A ++ (if (rlStep cfg st t').1.1 then [t'] else []) := by
      cases hb : (rlStep cfg st t').1.1 <;> simp
    rw [← hifapp]
    exact hx

lemma countP_trace_eq (tr : List (Int × Bool)) (w T : Int) :
    tr.countP (fun p => p.2 && inWin w T p.1)
      = (admittedTimes tr).countP (inWin w T) := by
  induction tr with
  | nil => rfl
  | cons p tr ih =>
    obtain ⟨t, b⟩ := p
    rw [admittedTimes_cons]
    cases b <;> simp [List.countP_cons, ih]

lemma rlStep_admit_flag (cfg : RLConfig) (st : RLState) (now : Int)
    (h : ¬ cfg.limit ≤ (evict (expire st now).entries (now - cfg.windowMs)).length) :
    (rlStep cfg st now).1 = (true, 0) := by
  unfold rlStep
  simp only [if_neg h]

lemma rlStep_deny_eval (cfg : RLConfig) (st : RLState) (now oldest : Int)
    (hadm : cfg.limit ≤ (evict (expire st now).entries (now - cfg.windowMs)).length)
    (hold : lowestScore (evict (expire st now).entries (now - cfg.windowMs)) = some oldest) :
    (rlStep cfg st now).1
      = (false,
         if cfg.windowMs - (now - oldest) < 0 then 0
         else cfg.windowMs - (now - oldest)) := by
  unfold rlStep
  simp only [if_pos hadm, hold]

lemma inv_init (cfg : RLConfig) (t0 : Int) : Inv cfg initState [] t0 := by
  refine ⟨?_, ?_, ?_, ?_, ?_, ?_, ?_⟩
  · intro e he; simp [initState] at he
  · intro e he; simp [initState] at he
  · intro e he; simp [initState] at he
  · intro e he; simp [initState] at he
  · simp [initState]
  · intro cut _; simp
  · intro T; simp

end BibleProj.RL

namespace BibleProj.RL

/-- Claim C6: for any key, within any single sliding window of `window_ms`
milliseconds, the number of `allow` calls that returned true is at most
`limit`; and whenever the count of live entries (score above
`now_ms - window_ms`) is already at or over the limit, the script denies
and adds no entry. -/
theorem sliding_window_admission_count :
    (∀ (cfg : RLConfig) (ts : List Int) (T : Int),
        List.Pairwise (· ≤ ·) ts → (∀ t ∈ ts, 0 ≤ t) →
        ((rlTrace cfg initState ts).1.countP
            (fun p => p.2 && inWin cfg.windowMs T p.1)) ≤ cfg.limit)
    ∧ (∀ (cfg : RLConfig) (st : RLState) (now : Int),
        cfg.limit ≤ (evict (expire st now).entries (now - cfg.windowMs)).length →
        (rlStep cfg st now).1.1 = false
        ∧ (rlStep cfg st now).2.entries
            = evict (expire st now).entries (now - cfg.windowMs)) := by
  constructor
  · intro cfg ts T hpw hpos
    have hb := rl_run_bound cfg ts initState [] 0 (inv_init cfg 0) hpw
      (fun t htm => ⟨hpos t htm, hpos t htm⟩) T
    simpa [countP_trace_eq] using hb
  · intro cfg st now h
    obtain ⟨h1, h2, _, _⟩ := rlStep_deny_shape cfg st now h
    exact ⟨h1, h2⟩

/-- Witness for C6 at concrete inputs: the scenario `limit 3, window 1000,
calls at 0/100/200/300` admits at most 3 in the window ending at 300, and a
full key (1 live member, limit 1) denies without inserting. -/
theorem sliding_window_admission_count_witness :
    ((rlTrace { limit := 3, windowMs := 1000 } initState [0, 100, 200, 300]).1.countP
        (fun p => p.2 && inWin 1000 300 p.1)) ≤ 3
    ∧ ((rlStep { limit := 1, windowMs := 1000 }
          { entries := [{ ms := 500, seq := 1 }], seqVal := 1, deadline := 1500 } 600).1.1
          = false
       ∧ (rlStep { limit := 1, windowMs := 1000 }
            { entries := [{ ms := 500, seq := 1 }], seqVal := 1, deadline := 1500 } 600).2.entries
          = evict (expire { entries := [{ ms := 500, seq := 1 }], seqVal := 1, deadline := 1500 } 600).entries (600 - 1000)) :=
  ⟨sliding_window_admission_count.1 { limit := 3, windowMs := 1000 } [0, 100, 200, 300] 300
      (by decide) (by decide),
   sliding_window_admission_count.2 { limit := 1, windowMs := 1000 }
      { entries := [{ ms := 500, seq := 1 }], seqVal := 1, deadline := 1500 } 600 (by decide)⟩

/-- Claim C7: on a denial the script returns
`retry_after = max(0, window - (now - oldest))` with `oldest` the lowest
surviving score after eviction; the hint never exceeds the window; and the
denied call inserts no member. -/
theorem deny_retry_after (cfg : RLConfig) (st : RLState) (now : Int)
    (hlim : 1 ≤ cfg.limit)
    (hlo : ∀ e ∈ st.entries, 0 ≤ e.ms)
    (hhi : ∀ e ∈ st.entries, e.ms ≤ now)
    (hdeny : (rlStep cfg st now).1.1 = false) :
    ∃ oldest : Int,
      lowestScore (evict (expire st now).entries (now - cfg.windowMs)) = some oldest
      ∧ (rlStep cfg st now).1.2 = max 0 (cfg.windowMs - (now - oldest))
      ∧ (rlStep cfg st now).1.2 ≤ cfg.windowMs
      ∧ (rlStep cfg st now).2.entries
          = evict (expire st now).entries (now - cfg.windowMs) := by
  by_cases hadm : cfg.limit ≤ (evict (expire st now).entries (now - cfg.windowMs)).length
  · have hne : evict (expire st now).entries (now - cfg.windowMs) ≠ [] := by
      intro hnil
      rw [hnil] at hadm
      simp at hadm
      omega
    obtain ⟨oldest, hold⟩ := Option.isSome_iff_exists.mp (lowestScore_isSome _ hne)
    obtain ⟨e0, he0, he0ms⟩ := lowestScore_mem _ oldest hold
    have he0f : e0 ∈ (expire st now).entries
        ∧ (e0.ms < 0 ∨ now - cfg.windowMs < e0.ms) := by
      simpa [evict] using he0
    have he0st : e0 ∈ st.entries := by
      rcases expire_cases st now with hE | hE
      · rw [hE] at he0f; exact he0f.1
      · rw [hE] at he0f
        exact absurd he0f.1 (List.not_mem_nil e0)
    have hlo0 : 0 ≤ e0.ms := hlo e0 he0st
    have hhi0 : e0.ms ≤ now := hhi e0 he0st
    have hgt : now - cfg.windowMs < e0.ms := by
      rcases he0f.2 with hneg | hgt
      · omega
      · exact hgt
    have heval := rlStep_deny_eval cfg st now oldest hadm hold
    obtain ⟨_, hent, _, _⟩ := rlStep_deny_shape cfg st now hadm
    have hpos : 0 ≤ cfg.windowMs - (now - oldest) := by omega
    refine ⟨oldest, hold, ?_, ?_, hent⟩
    · rw [heval]
      simp only []
      rw [if_neg (by omega)]
      omega
    · rw [heval]
      simp only []
      rw [if_neg (by omega)]
      omega
  · have := rlStep_admit_flag cfg st now hadm
    rw [this] at hdeny
    cases hdeny

/-- Witness for C7 at a concrete full key: one live member at score 500,
limit 1, a call at 600 is denied with `retry_after = 900 ≤ 1000` and
nothing inserted. -/
theorem deny_retry_after_witness :
    ∃ oldest : Int,
      lowestScore (evict (expire { entries := [{ ms := 500, seq := 1 }], seqVal := 1, deadline := 1500 } 600).entries (600 - 1000)) = some oldest
      ∧ (rlStep { limit := 1, windowMs := 1000 }
          { entries := [{ ms := 500, seq := 1 }], seqVal := 1, deadline := 1500 } 600).1.2
          = max 0 (1000 - (600 - oldest))
      ∧ (rlStep { limit := 1, windowMs := 1000 }
          { entries := [{ ms := 500, seq := 1 }], seqVal := 1, deadline := 1500 } 600).1.2
          ≤ 1000
      ∧ (rlStep { limit := 1, windowMs := 1000 }
          { entries := [{ ms := 500, seq := 1 }], seqVal := 1, deadline := 1500 } 600).2.entries
          = evict (expire { entries := [{ ms := 500, seq := 1 }], seqVal := 1, deadline := 1500 } 600).entries (600 - 1000) :=
  deny_retry_after { limit := 1, windowMs := 1000 }
    { entries := [{ ms := 500, seq := 1 }], seqVal := 1, deadline := 1500 } 600
    (by decide) (by decide) (by decide) (by decide)

end BibleProj.RL

namespace BibleProj.Sched

/-- Claim C2 (refuting evaluation): the delayed queue's `Push` and `Pop`
are the raw `heap.Interface` slice methods, called directly and never
through `container/heap`, so `Pop` returns the most recently pushed task
regardless of `execute_at`: after pushing tasks with `execute_at` 1 then 2,
the first pop yields the task at 2 while the task at 1 is still queued — a
decreasing pop sequence; moreover the scheduler's own push of a `Task`
value panics on `Push`'s `*Task` assertion. -/
theorem pq_pop_returns_last_pushed :
    PriorityQueue.push [] (HeapElem.taskPtr tEarly) = some [tEarly]
    ∧ PriorityQueue.push [tEarly] (HeapElem.taskPtr tLate) = some [tEarly, tLate]
    ∧ PriorityQueue.pop [tEarly, tLate] = some (tLate, [tEarly])
    ∧ tEarly.executeAt < tLate.executeAt
    ∧ PriorityQueue.push [] (HeapElem.taskVal tEarly) = none := by
  refine ⟨rfl, rfl, ?_, by decide, rfl⟩
  decide

/-- Claim C3 (refuting evaluation): a task whose `Retries` has reached
`MaxRetries` (= 3) fails the dispatch guard `Retries < MaxRetries`, so the
executor is not invoked a fourth time, nothing is appended to the dead
queue, and the task is silently dropped. -/
theorem exhausted_task_dropped :
    processTask mailerNet st0 tExhausted = ([], some st0)
    ∧ tExhausted.retries = tExhausted.maxRetries := by
  exact ⟨by decide, by decide⟩

/-- Claim C4 (refuting evaluation): on a payload that does not type-match
the kind, the empty `if !ok { }` body does not stop execution, so the
mailer is invoked anyway with the zero-valued payload (empty recipient);
no bad-payload counter exists anywhere in the scheduler. -/
theorem bad_payload_invokes_mailer :
    processTask mailerOk st0 tBadPayload
      = ([Event.send ("") "user_welcome.tmpl"], some st0) := by
  decide

/-- Claim C5 (refuting evaluation): for a retriable failure with
`Retries < MaxRetries`, `scheduleRetry` increments the retry counter and
computes `execute_at = created_at + backoff`, but the concluding
`DelayedQueue.Push(task)` passes a `Task` value to the `*Task` assertion
and panics, so the task is never pushed into the delayed queue. -/
theorem retry_push_panics :
    scheduleRetry st0 tActivation = none
    ∧ tActivation.retries < tActivation.maxRetries := by
  exact ⟨by decide, by decide⟩

/-- Claim C10 (refuting evaluation): the worker loop has no `recover`; the
panic raised while processing a single retriable-failing task escapes
`processTask` and terminates the worker, leaving the rest of the channel
unprocessed. -/
theorem worker_panic_kills_worker :
    workerRun mailerNet st0 [tActivation]
      = ([Event.send ("a@x") "user_welcome.tmpl", Event.logged ("NETWORK_FAILURE") true], none)
    ∧ (workerRun mailerNet st0 [tActivation, tBadPayload]).2 = none := by
  exact ⟨by decide, by decide⟩

end BibleProj.Sched

namespace BibleProj.TokenSvc

/-- Claim C1 (refuting evaluation): for a well-shaped 26-character token
absent from the cache, `GetForToken` yields the miss encoding `("", nil)`;
`GetUserForToken` takes the nil error for a hit, decodes the empty value —
one field after the split — and panics indexing the second field; the
database lookup is never reached and no user is returned. -/
theorem cache_miss_decode_panics :
    getUserForToken RedisGet.nilReply DbResult.missing false ("abcdefghijklmnopqrstuvwxyz")
      = ([TsEvent.cacheGet ("abcdefghijklmnopqrstuvwxyz")], none) := rfl

/-- Claim C8: a token whose length is not exactly 26 characters is rejected
as `ErrInvalidToken` by the shape validation, with an empty effect trace —
neither a cache call nor a database call is made. -/
theorem invalid_length_no_calls (g : RedisGet) (db : DbResult) (setFails : Bool)
    (tok : String) (h : tok.length ≠ 26) :
    getUserForToken g db setFails tok
      = ([], some (Except.error TsError.invalidToken)) := by
  have hb : (tok.length == 26) = false := by
    simpa using h
  simp [getUserForToken, Validator.new, Validator.check, Validator.valid, hb]

/-- Witness for C8 at the concrete 5-character token of length 5. -/
theorem invalid_length_no_calls_witness :
    getUserForToken RedisGet.nilReply DbResult.missing false ("short")
      = ([], some (Except.error TsError.invalidToken)) :=
  invalid_length_no_calls RedisGet.nilReply DbResult.missing false ("short") (by decide)

/-- Claim C9: on the login path, whenever the trace contains the cache
write for the new token, the database insert succeeded and the insert
event precedes the cache-write event; contrapositively a failed insert
means no cache write at all. -/
theorem cache_write_after_insert (emailRx : String → Bool) (gbe : GetByEmailRes)
    (pw : MatchRes) (plaintext : String) (insertOk setOk : Bool)
    (email password : String)
    (h : (createAuthToken emailRx gbe pw plaintext insertOk setOk email password).1.any
          isCacheSet = true) :
    insertOk = true
    ∧ ∃ uid tok act,
        (createAuthToken emailRx gbe pw plaintext insertOk setOk email password).1.get? 1
          = some (LoginEvent.dbInsert uid ("authentication"))
        ∧ (createAuthToken emailRx gbe pw plaintext insertOk setOk email password).1.get? 2
          = some (LoginEvent.cacheSet tok uid act) := by
  unfold createAuthToken at h ⊢
  by_cases hval : (validatePassword (validateEmail emailRx Validator.new email) password).valid
      = true
  · rw [if_neg (fun hc => hc hval)] at h ⊢
    cases gbe with
    | missing => simp [isCacheSet] at h
    | failure => simp [isCacheSet] at h
    | found user =>
      cases pw with
      | failure => simp [isCacheSet] at h
      | ok matched =>
        cases matched with
        | false => simp [isCacheSet] at h
        | true =>
          cases insertOk with
          | false => simp [TokenModel.new, isCacheSet] at h
          | true =>
            cases setOk with
            | false => exact ⟨rfl, user.id, plaintext, user.activated, rfl, rfl⟩
            | true => exact ⟨rfl, user.id, plaintext, user.activated, rfl, rfl⟩
  · rw [if_pos hval] at h
    simp [isCacheSet] at h

/-- Witness for C9 at concrete oracles: a valid login for user 7 produces
the trace lookup, insert, cache write, with the insert at index 1 preceding
the cache write at index 2. -/
theorem cache_write_after_insert_witness :
    (true : Bool) = true
    ∧ ∃ uid tok act,
        (createAuthToken (fun _ => true)
            (GetByEmailRes.found { id := 7, email := "u@x", activated := true })
            (MatchRes.ok true) "tok7" true true ("u@x") "password1").1.get? 1
          = some (LoginEvent.dbInsert uid ("authentication"))
        ∧ (createAuthToken (fun _ => true)
            (GetByEmailRes.found { id := 7, email := "u@x", activated := true })
            (MatchRes.ok true) "tok7" true true ("u@x") "password1").1.get? 2
          = some (LoginEvent.cacheSet tok uid act) :=
  cache_write_after_insert (fun _ => true)
    (GetByEmailRes.found { id := 7, email := "u@x", activated := true })
    (MatchRes.ok true) "tok7" true true ("u@x") "password1" (by decide)

end BibleProj.TokenSvc
